import Mathlib

/-!
Verification of the `tauri-bindgen-ts` macro crate
(`src/tauri-bindgen-ts-macro/src/lib.rs`).

The crate offers two attribute macros:

* `entity` — wraps a struct item with `ts_rs`/`serde` derive and export
  attributes, pointing the TypeScript export at a resolved directory.
* `command` — wraps a function item with `#[tauri::command]` and appends a
  generated test which, when run, writes a TypeScript wrapper file
  `{dir}/{name}.ts` whose content is built from a fixed header comment, a
  fixed import line and a templated `export async function` declaration.

We embed the pure parts directly (string building, argument extraction,
directory-argument parsing) and model the generated test's filesystem
behaviour as an explicit operation list plus a runner parameterised by a
success oracle. Rust's `str::replace` is modelled by a fuel-indexed
left-to-right non-overlapping replacement on character lists, and
`Vec::join` by `joinSep`. Panics (`panic!` / `expect`) are modelled with
`Except.error` carrying the exact panic message.
-/

namespace TauriBindgenTs

/-- The character predicate used by `parse_dir_arg`'s `trim_matches`
closure: `|c| c == '"' || c == '\'' `. -/
def isQuoteChar (c : Char) : Bool := c == '"' || c == '\x27'

/-- Rust's `str::trim_matches` with a char predicate: remove all leading and
all trailing characters satisfying the predicate. -/
def trimMatchesQuotes (s : String) : String :=
  ⟨((s.data.dropWhile isQuoteChar).reverse.dropWhile isQuoteChar).reverse⟩

/-- Source `parse_dir_arg`: trim surrounding quote characters from
the raw attribute text; if the result is empty return `"../src-gen"`,
otherwise return the trimmed text. -/
def parse_dir_arg (attr : String) : String :=
  let dir := trimMatchesQuotes attr
  if dir = "" then "../src-gen" else dir

/-- The fragment of `syn::Pat` the source inspects: an identifier binding
pattern, or anything else (tuple / destructuring / ...). -/
inductive Pat
  | ident (name : String)
  | other (descr : String)
deriving DecidableEq, Repr

/-- The fragment of `syn::Type` the source inspects: a plain path type, or
anything else (reference / tuple / ...). -/
inductive Ty
  | path (name : String)
  | other (descr : String)
deriving DecidableEq, Repr

/-- Model of `syn::PatType`: a typed function argument `pat: ty`. -/
structure PatType where
  pat : Pat
  ty : Ty
deriving DecidableEq, Repr

/-- Model of `syn::FnArg`: either a receiver (`self`, `&self`, ...) or a typed
argument. -/
inductive FnArg
  | receiver
  | typed (t : PatType)
deriving DecidableEq, Repr

/-- The part of `syn::ItemFn` the source uses: the function name and its
input list. -/
structure ItemFn where
  name : String
  inputs : List FnArg
deriving DecidableEq, Repr

/-- The source's `Func` struct: function name together with the extracted
`(Ident, Path)` pairs, both rendered as strings. -/
structure Func where
  name : String
  args : List (String × String)
deriving DecidableEq, Repr

/-- The receiver-rejecting extraction step of `func_metadata`:
`filter_map(|arg| if let FnArg::Typed(t) = arg { Some(t) } else { panic!(...) })`
collected in order. -/
def collect_typed : List FnArg → Except String (List PatType)
  | [] => Except.ok []
  | FnArg.receiver :: _ =>
      Except.error "Only top-level functions are allowed as commands!"
  | FnArg.typed t :: rest =>
    match collect_typed rest with
    | Except.error e => Except.error e
    | Except.ok done => Except.ok (t :: done)

/-- Source `types`: keep arguments whose pattern is a plain
identifier and whose type is a plain path, panicking otherwise; per element
the pattern is checked before the type, exactly as the fused iterator chain
does. -/
def types : List PatType → Except String (List (String × String))
  | [] => Except.ok []
  | arg :: rest =>
    match arg.pat with
    | Pat.ident p =>
      match arg.ty with
      | Ty.path t =>
        match types rest with
        | Except.error e => Except.error e
        | Except.ok done => Except.ok ((p, t) :: done)
      | Ty.other _ =>
          Except.error "Only simple owned types are allowed as arguments at the moment!"
    | Pat.other _ =>
        Except.error "Only simple owned types are allowed as arguments at the moment!"

/-- Source `func_metadata`: extract the typed arguments (panicking
on any receiver), then restrict them to simple owned shapes via `types`. -/
def func_metadata (f : ItemFn) : Except String Func :=
  match collect_typed f.inputs with
  | Except.error e => Except.error e
  | Except.ok typedArgs =>
    match types typedArgs with
    | Except.error e => Except.error e
    | Except.ok args => Except.ok { name := f.name, args := args }

/-- Rust's `Vec::<String>::join(sep)`. -/
def joinSep (sep : String) : List String → String
  | [] => ""
  | [x] => x
  | x :: xs => x ++ sep ++ joinSep sep xs

/-- The `names` vector of the generated test: the argument identifiers in
declaration order. -/
def argNames (f : Func) : List String := f.args.map (fun a => a.1)

/-- The `types` vector of the generated test: each argument's path rendered
through a type-name resolver `ts` (modelling `ts_rs::TS::name()`), in
declaration order. -/
def argTypes (ts : String → String) (f : Func) : List String :=
  f.args.map (fun a => ts a.2)

/-- The `args` string of the generated test:
`types.iter().enumerate().map(|(index, elem)| [names[index], elem].join(": ")).join(", ")`. -/
def argsString (ts : String → String) (f : Func) : String :=
  joinSep ", "
    (((argTypes ts f).enum).map
      (fun p => joinSep ": " [(argNames f).getD p.1 "", p.2]))

/-- The fixed generated-file warning header comment from the source. -/
def header : String :=
  "// This file was generated by [tauri-bindgen-ts](https://github.com/antoniusnaumann/tauri-bindgen-ts). Do not edit this file manually."

/-- The fixed import line for the invocation primitive from the source. -/
def invokeImport : String :=
  "import \x7b invoke \x7d from \"@tauri-apps/api/tauri\""

/-- The `binding` format result from the source, with the `%0` / `%1`
placeholders still present:
`export async function {name}(%0) \x7b return await invoke('{name}', \x7b %1 \x7d) \x7d`. -/
def bindingTemplate (name : String) : String :=
  "export async function " ++ name ++ "(" ++ "%0" ++
    ") \x7b return await invoke(\x27" ++ name ++ "\x27, \x7b " ++ "%1" ++
    " \x7d) \x7d"

/-- The `content` format result from the source:
`{header}\n{import}\n\n{binding}`. -/
def contentTemplate (name : String) : String :=
  header ++ "\n" ++ invokeImport ++ "\n\n" ++ bindingTemplate name

/-- The `file_name` format result from the source: `{dir}/{name}.ts`. -/
def file_name (dir name : String) : String := dir ++ "/" ++ name ++ ".ts"

/-- Fuel-indexed left-to-right non-overlapping replacement on character
lists; with fuel at least the length of the input this is Rust's
`str::replace` for a non-empty needle. -/
def replFuel (needle repl : List Char) : Nat → List Char → List Char
  | _, [] => []
  | 0, s => s
  | fuel + 1, c :: rest =>
    if needle.isPrefixOf (c :: rest) then
      repl ++ replFuel needle repl fuel ((c :: rest).drop needle.length)
    else
      c :: replFuel needle repl fuel rest

/-- Replacement on character lists with enough fuel to scan the whole
input. -/
def listReplace (s needle repl : List Char) : List Char :=
  replFuel needle repl s.length s

/-- Rust's `str::replace` on strings (for non-empty needles). -/
def rustReplace (s needle repl : String) : String :=
  ⟨listReplace s.data needle.data repl.data⟩

/-- The content written by the generated test:
`content.replace("%0", args).replace("%1", names.join(", "))`. -/
def fileContent (ts : String → String) (f : Func) : String :=
  rustReplace (rustReplace (contentTemplate f.name) "%0" (argsString ts f))
    "%1" (joinSep ", " (argNames f))

/-- A filesystem operation performed by the generated test. -/
inductive FsOp
  | createDirAll (dir : String)
  | write (path : String) (content : String)
deriving DecidableEq, Repr

/-- The filesystem operations of the generated test, in program order:
`fs::create_dir_all(dir)` then `fs::write(file_name, content)`. -/
def generate_test (ts : String → String) (f : Func) (dir : String) :
    List FsOp :=
  [FsOp.createDirAll dir, FsOp.write (file_name dir f.name) (fileContent ts f)]

/-- The `expect` message attached to each filesystem operation in the
generated test. -/
def fsErrMsg : FsOp → String
  | FsOp.createDirAll _ => "Could not create directory"
  | FsOp.write _ _ => "Could not write generated function binding to file"

/-- Run a list of filesystem operations against a success oracle: stop at
the first failing operation with its `expect` message (modelling the test
panicking), otherwise return the operations actually performed. -/
def runOps (ok : FsOp → Bool) : List FsOp → Except String (List FsOp)
  | [] => Except.ok []
  | op :: rest =>
    if ok op then
      match runOps ok rest with
      | Except.error e => Except.error e
      | Except.ok done => Except.ok (op :: done)
    else Except.error (fsErrMsg op)

/-- The `command` attribute macro's generation pipeline, observed through
the filesystem operations its generated test performs: extract the
function's metadata (which may panic) and, on success, produce the
operations of the generated test for the resolved directory. -/
def command (ts : String → String) (attr : String) (item : ItemFn) :
    Except String (List FsOp) :=
  let dir := parse_dir_arg attr
  match func_metadata item with
  | Except.error e => Except.error e
  | Except.ok f => Except.ok (generate_test ts f dir)

/-- The expansion produced by the `entity` attribute macro: the derive list,
the `ts(export)` marker, the `ts(export_to = ...)` target, and the original
item, kept verbatim. -/
structure EntityExpansion (α : Type) where
  derives : List String
  tsExport : Bool
  tsExportTo : String
  item : α
deriving Repr

/-- Expansion of the `entity` attribute macro:
emits `#[derive(ts_rs::TS, serde::Serialize, serde::Deserialize)]`,
`#[ts(export)]`, `#[ts(export_to = "{parse_dir_arg(attr)}/")]` followed by
the unchanged item. -/
def entity {α : Type} (attr : String) (item : α) : EntityExpansion α :=
  let dir := parse_dir_arg attr ++ "/"
  { derives := ["ts_rs::TS", "serde::Serialize", "serde::Deserialize"]
    tsExport := true
    tsExportTo := dir
    item := item }

/-- A sample descriptor: `greet(name: String)`, as in the spec's example. -/
def greetFn : Func := { name := "greet", args := [("name", "String")] }

/-- A sample type-name resolver mapping the Rust path `String` to the
TypeScript name `string`. -/
def stringTs : String → String := fun t => if t = "String" then "string" else t

/-- A sample descriptor with two parameters: `add(a: f64, b: f64)`. -/
def addFn : Func := { name := "add", args := [("a", "f64"), ("b", "f64")] }

/-- A sample type-name resolver mapping the Rust path `f64` to the
TypeScript name `number`. -/
def numberTs : String → String := fun t => if t = "f64" then "number" else t


/-- The character data before the `%0` placeholder in the content
template. -/
def segA (name : String) : List Char :=
  (header ++ "\n" ++ invokeImport ++ "\n\n" ++
    "export async function ").data ++ name.data ++ ['(']

/-- The character data between the `%0` and `%1` placeholders in the content
template. -/
def segM (name : String) : List Char :=
  (") \x7b return await invoke(\x27" : String).data ++ name.data ++
    ("\x27, \x7b " : String).data

/-- The character data after the `%1` placeholder in the content
template. -/
def segZ : List Char := (" \x7d) \x7d" : String).data

/-- The function declaration actually emitted by the generated test, after
placeholder substitution; note there is no semicolon before the closing
brace. -/
def declLine (ts : String → String) (f : Func) : String :=
  "export async function " ++ f.name ++ "(" ++ argsString ts f ++
    ") \x7b return await invoke(\x27" ++ f.name ++ "\x27, \x7b " ++
    joinSep ", " (argNames f) ++ " \x7d) \x7d"

/-- A `PatType` is of the supported shape when its pattern is a plain
identifier and its type a plain path. -/
def isSimpleArg (t : PatType) : Bool :=
  (match t.pat with | Pat.ident _ => true | Pat.other _ => false) &&
  (match t.ty with | Ty.path _ => true | Ty.other _ => false)

/-- A function item with a tuple binding pattern in its parameter list. -/
def tupleArgFn : ItemFn :=
  { name := "bad",
    inputs := [FnArg.typed { pat := Pat.other "tuple", ty := Ty.path "i32" }] }

/-- A method item taking a receiver argument. -/
def methodFn : ItemFn := { name := "method", inputs := [FnArg.receiver] }

theorem replFuel_no_hit (x : Char) (nt repl : List Char) :
    ∀ (fuel : Nat) (s : List Char), x ∉ s → replFuel (x :: nt) repl fuel s = s := by
  intro fuel
  induction fuel with
  | zero => intro s _; cases s <;> simp [replFuel]
  | succ fuel ih =>
    intro s hs
    cases s with
    | nil => simp [replFuel]
    | cons c rest =>
      have hx : ¬ x = c := fun h => hs (h ▸ List.mem_cons_self x rest)
      have hrest : x ∉ rest := fun h => hs (List.mem_cons_of_mem c h)
      simp only [replFuel]
      rw [if_neg (by simp [List.isPrefixOf, hx])]
      exact congrArg (c :: ·) (ih rest hrest)

theorem replFuel_near_miss (d e : Char) (hd : d ≠ e) (he : e ≠ '%')
    (repl : List Char) :
    ∀ (M : List Char), '%' ∉ M → ∀ (Z : List Char), '%' ∉ Z → ∀ (fuel : Nat),
      replFuel ['%', d] repl fuel (M ++ '%' :: e :: Z) = M ++ '%' :: e :: Z := by
  intro M
  induction M with
  | nil =>
    intro _ Z hZ fuel
    cases fuel with
    | zero => simp [replFuel]
    | succ fuel =>
      simp only [List.nil_append, replFuel]
      rw [if_neg (by simp [List.isPrefixOf, hd])]
      have hmem : '%' ∉ e :: Z := by
        intro h
        rcases List.mem_cons.mp h with h | h
        · exact he h.symm
        · exact hZ h
      rw [replFuel_no_hit '%' [d] repl fuel (e :: Z) hmem]
  | cons c M ih =>
    intro hM Z hZ fuel
    have hc : ¬ '%' = c := fun h => hM (h ▸ List.mem_cons_self c M)
    have hM' : '%' ∉ M := fun h => hM (List.mem_cons_of_mem c h)
    cases fuel with
    | zero => simp [replFuel]
    | succ fuel =>
      simp only [List.cons_append, replFuel]
      rw [if_neg (by simp [List.isPrefixOf, hc])]
      simp only [List.append_eq]
      rw [ih hM' Z hZ fuel]

theorem replFuel_splice (d : Char) (repl : List Char) :
    ∀ (A : List Char), '%' ∉ A → ∀ (B : List Char) (fuel : Nat),
      A.length < fuel →
      replFuel ['%', d] repl fuel (A ++ '%' :: d :: B) =
        A ++ repl ++ replFuel ['%', d] repl (fuel - A.length - 1) B := by
  intro A
  induction A with
  | nil =>
    intro _ B fuel hfuel
    cases fuel with
    | zero => omega
    | succ fuel =>
      simp only [List.nil_append, replFuel]
      rw [if_pos (by simp [List.isPrefixOf])]
      simp [List.isPrefixOf]
  | cons c A ih =>
    intro hA B fuel hfuel
    have hc : ¬ '%' = c := fun h => hA (h ▸ List.mem_cons_self c A)
    have hA' : '%' ∉ A := fun h => hA (List.mem_cons_of_mem c h)
    cases fuel with
    | zero => simp at hfuel
    | succ fuel =>
      have hlt : A.length < fuel := by simp at hfuel; omega
      simp only [List.cons_append, replFuel]
      rw [if_neg (by simp [List.isPrefixOf, hc])]
      simp only [List.append_eq]
      rw [ih hA' B fuel hlt]
      have harith : fuel + 1 - (c :: A).length - 1 = fuel - A.length - 1 := by
        simp only [List.length_cons]
        omega
      rw [harith]

theorem listReplace_both (A M Z r0 r1 : List Char)
    (hA : '%' ∉ A) (hM : '%' ∉ M) (hZ : '%' ∉ Z) (hr0 : '%' ∉ r0) :
    listReplace (listReplace (A ++ '%' :: '0' :: (M ++ '%' :: '1' :: Z))
        ['%', '0'] r0) ['%', '1'] r1 =
      A ++ r0 ++ M ++ r1 ++ Z := by
  have h01 : ('0' : Char) ≠ '1' := by decide
  have h1p : ('1' : Char) ≠ '%' := by decide
  have step1 :
      listReplace (A ++ '%' :: '0' :: (M ++ '%' :: '1' :: Z)) ['%', '0'] r0 =
        A ++ r0 ++ (M ++ '%' :: '1' :: Z) := by
    unfold listReplace
    rw [replFuel_splice '0' r0 A hA (M ++ '%' :: '1' :: Z) _ (by simp)]
    rw [replFuel_near_miss '0' '1' h01 h1p r0 M hM Z hZ]
  rw [step1]
  have reassoc : A ++ r0 ++ (M ++ '%' :: '1' :: Z) =
      (A ++ r0 ++ M) ++ '%' :: '1' :: Z := by
    simp [List.append_assoc]
  rw [reassoc]
  have hA' : '%' ∉ A ++ r0 ++ M := by
    intro h
    rcases List.mem_append.mp h with h | h
    · rcases List.mem_append.mp h with h | h
      · exact hA h
      · exact hr0 h
    · exact hM h
  unfold listReplace
  rw [replFuel_splice '1' r1 (A ++ r0 ++ M) hA' Z _ (by simp)]
  rw [replFuel_no_hit '%' ['1'] r1 _ Z hZ]


theorem stringExt {s t : String} (h : s.data = t.data) : s = t := by
  cases s; cases t; exact congrArg String.mk h

theorem joinSep_not_mem (c : Char) (sep : String) (hsep : c ∉ sep.data) :
    ∀ (l : List String), (∀ x ∈ l, c ∉ x.data) → c ∉ (joinSep sep l).data := by
  intro l
  induction l with
  | nil =>
    intro _
    rw [show joinSep sep [] = "" from rfl]
    rw [show ("" : String).data = [] from rfl]
    exact List.not_mem_nil c
  | cons x xs ih =>
    intro h
    cases xs with
    | nil => simpa [joinSep] using h x (List.mem_cons_self x [])
    | cons y ys =>
      have hx := h x (List.mem_cons_self x (y :: ys))
      have hjoin := ih (fun z hz => h z (List.mem_cons_of_mem x hz))
      intro hmem
      rw [show joinSep sep (x :: y :: ys) = x ++ sep ++ joinSep sep (y :: ys)
            from rfl] at hmem
      rw [String.data_append, String.data_append] at hmem
      rcases List.mem_append.mp hmem with h1 | h1
      · rcases List.mem_append.mp h1 with h2 | h2
        · exact hx h2
        · exact hsep h2
      · exact hjoin h1

theorem getD_append_length {α : Type} (d x : α) :
    ∀ (pre t : List α), (pre ++ x :: t).getD pre.length d = x := by
  intro pre
  induction pre with
  | nil => intro t; rfl
  | cons p ps ih =>
    intro t
    simpa [List.cons_append, List.getD_cons_succ] using ih t

theorem argsList_aux (ts : String → String) :
    ∀ (args : List (String × String)) (pre : List String),
      (List.enumFrom pre.length (args.map (fun a => ts a.2))).map
        (fun p => joinSep ": " [(pre ++ args.map (fun a => a.1)).getD p.1 "", p.2])
      = args.map (fun a => a.1 ++ ": " ++ ts a.2) := by
  intro args
  induction args with
  | nil => intro pre; simp [List.enumFrom]
  | cons a rest ih =>
    intro pre
    simp only [List.map_cons, List.enumFrom]
    congr 1
    · show joinSep ": "
        [(pre ++ a.1 :: rest.map (fun a => a.1)).getD pre.length "", ts a.2] =
          a.1 ++ ": " ++ ts a.2
      rw [show (joinSep ": "
        [(pre ++ a.1 :: rest.map (fun a => a.1)).getD pre.length "", ts a.2]) =
          ((pre ++ a.1 :: rest.map (fun a => a.1)).getD pre.length "") ++ ": " ++ ts a.2 from rfl]
      rw [getD_append_length]
    · rw [List.append_cons pre a.1 (rest.map (fun a => a.1))]
      rw [show pre.length + 1 = (pre ++ [a.1]).length by simp]
      exact ih (pre ++ [a.1])

theorem argsString_eq (ts : String → String) (f : Func) :
    argsString ts f = joinSep ", " (f.args.map (fun a => a.1 ++ ": " ++ ts a.2)) := by
  have := argsList_aux ts f.args []
  simp only [List.nil_append, List.length_nil] at this
  unfold argsString argTypes argNames
  rw [show List.enum (f.args.map fun a => ts a.2) =
        List.enumFrom 0 (f.args.map fun a => ts a.2) from rfl]
  rw [this]

theorem argsString_not_mem (c : Char) (hc1 : c ∉ (", " : String).data)
    (hc2 : c ∉ (": " : String).data) (ts : String → String) (f : Func)
    (h : ∀ a ∈ f.args, c ∉ a.1.data ∧ c ∉ (ts a.2).data) :
    c ∉ (argsString ts f).data := by
  rw [argsString_eq]
  apply joinSep_not_mem c ", " hc1
  intro x hx
  rcases List.mem_map.mp hx with ⟨a, ha, rfl⟩
  intro hmem
  rw [String.data_append, String.data_append] at hmem
  rcases List.mem_append.mp hmem with h1 | h1
  · rcases List.mem_append.mp h1 with h2 | h2
    · exact (h a ha).1 h2
    · exact hc2 h2
  · exact (h a ha).2 h1

theorem namesJoin_not_mem (c : Char) (hc1 : c ∉ (", " : String).data)
    (f : Func) (h : ∀ a ∈ f.args, c ∉ a.1.data) :
    c ∉ (joinSep ", " (argNames f)).data := by
  apply joinSep_not_mem c ", " hc1
  intro x hx
  rcases List.mem_map.mp hx with ⟨a, ha, rfl⟩
  exact h a ha

theorem fileContent_split (ts : String → String) (f : Func)
    (h1 : '%' ∉ f.name.data)
    (h2 : ∀ a ∈ f.args, '%' ∉ a.1.data ∧ '%' ∉ (ts a.2).data) :
    fileContent ts f =
      header ++ "\n" ++ invokeImport ++ "\n\n" ++
        ("export async function " ++ f.name ++ "(" ++ argsString ts f ++
          ") \x7b return await invoke(\x27" ++ f.name ++ "\x27, \x7b " ++
          joinSep ", " (argNames f) ++ " \x7d) \x7d") := by
  have hargs : '%' ∉ (argsString ts f).data :=
    argsString_not_mem '%' (by decide) (by decide) ts f h2
  have hnames : '%' ∉ (joinSep ", " (argNames f)).data :=
    namesJoin_not_mem '%' (by decide) f (fun a ha => (h2 a ha).1)
  apply stringExt
  have hA : '%' ∉ segA f.name := by
    intro hmem
    rcases List.mem_append.mp hmem with hm | hm
    · rcases List.mem_append.mp hm with hm2 | hm2
      · revert hm2; decide
      · exact h1 hm2
    · revert hm; decide
  have hM : '%' ∉ segM f.name := by
    intro hmem
    rcases List.mem_append.mp hmem with hm | hm
    · rcases List.mem_append.mp hm with hm2 | hm2
      · revert hm2; decide
      · exact h1 hm2
    · revert hm; decide
  have hZ : '%' ∉ segZ := by decide
  have key := listReplace_both (segA f.name) (segM f.name) segZ
    (argsString ts f).data (joinSep ", " (argNames f)).data hA hM hZ hargs
  have hshape : (contentTemplate f.name).data =
      segA f.name ++ '%' :: '0' :: (segM f.name ++ '%' :: '1' :: segZ) := by
    simp only [contentTemplate, bindingTemplate, segA, segM, segZ,
      String.data_append]
    simp [List.append_assoc, List.cons_append]
  show listReplace (listReplace (contentTemplate f.name).data ['%', '0']
      (argsString ts f).data) ['%', '1'] (joinSep ", " (argNames f)).data = _
  rw [hshape, key]
  simp only [segA, segM, segZ, String.data_append]
  simp [List.append_assoc, List.cons_append]


theorem dropWhile_head_false {α : Type} (p : α → Bool) :
    ∀ (l : List α) (c : α), (l.dropWhile p).head? = some c → p c = false := by
  intro l
  induction l with
  | nil => intro c h; simp [List.dropWhile] at h
  | cons a t ih =>
    intro c h
    by_cases hp : p a = true
    · rw [List.dropWhile_cons_of_pos hp] at h
      exact ih c h
    · rw [List.dropWhile_cons_of_neg hp] at h
      simp at h
      rw [← h]
      simpa using hp

theorem getLast?_dropWhile {α : Type} (p : α → Bool) :
    ∀ (l : List α), l.dropWhile p = [] ∨
      (l.dropWhile p).getLast? = l.getLast? := by
  intro l
  induction l with
  | nil => left; rfl
  | cons a t ih =>
    by_cases hp : p a = true
    · rw [List.dropWhile_cons_of_pos hp]
      by_cases hdt : t.dropWhile p = []
      · left; exact hdt
      · right
        rcases ih with h | h
        · exact absurd h hdt
        · rw [h]
          cases t with
          | nil => exact absurd rfl hdt
          | cons b u => rfl
    · right
      rw [List.dropWhile_cons_of_neg hp]


theorem trimMatchesQuotes_decomp (s : String) :
    ∃ pre suf, s.data = pre ++ (trimMatchesQuotes s).data ++ suf ∧
      (∀ c ∈ pre, isQuoteChar c = true) ∧ (∀ c ∈ suf, isQuoteChar c = true) := by
  refine ⟨s.data.takeWhile isQuoteChar,
    ((s.data.dropWhile isQuoteChar).reverse.takeWhile isQuoteChar).reverse,
    ?_, ?_, ?_⟩
  · have h1 : s.data =
        s.data.takeWhile isQuoteChar ++ s.data.dropWhile isQuoteChar :=
      (List.takeWhile_append_dropWhile isQuoteChar s.data).symm
    have hmid := List.takeWhile_append_dropWhile isQuoteChar
      (s.data.dropWhile isQuoteChar).reverse
    have h2 : s.data.dropWhile isQuoteChar =
        ((s.data.dropWhile isQuoteChar).reverse.dropWhile isQuoteChar).reverse ++
          ((s.data.dropWhile isQuoteChar).reverse.takeWhile isQuoteChar).reverse := by
      calc s.data.dropWhile isQuoteChar
          = ((s.data.dropWhile isQuoteChar).reverse).reverse :=
            (List.reverse_reverse _).symm
        _ = ((s.data.dropWhile isQuoteChar).reverse.takeWhile isQuoteChar ++
              (s.data.dropWhile isQuoteChar).reverse.dropWhile isQuoteChar).reverse := by
            rw [hmid]
        _ = _ := by rw [List.reverse_append]
    rw [show (trimMatchesQuotes s).data =
        ((s.data.dropWhile isQuoteChar).reverse.dropWhile isQuoteChar).reverse
        from rfl]
    conv_lhs => rw [h1, h2]
    rw [List.append_assoc]
  · intro c hc; exact List.mem_takeWhile_imp hc
  · intro c hc
    rw [List.mem_reverse] at hc
    exact List.mem_takeWhile_imp hc

theorem trimMatchesQuotes_head_not_quote (s : String) :
    ∀ c, (trimMatchesQuotes s).data.head? = some c → isQuoteChar c = false := by
  intro c h
  rw [show (trimMatchesQuotes s).data =
      ((s.data.dropWhile isQuoteChar).reverse.dropWhile isQuoteChar).reverse
      from rfl] at h
  rw [List.head?_reverse] at h
  rcases getLast?_dropWhile isQuoteChar (s.data.dropWhile isQuoteChar).reverse
    with he | he
  · rw [he] at h; cases h
  · rw [he, List.getLast?_reverse] at h
    exact dropWhile_head_false isQuoteChar s.data c h

theorem trimMatchesQuotes_last_not_quote (s : String) :
    ∀ c, (trimMatchesQuotes s).data.getLast? = some c → isQuoteChar c = false := by
  intro c h
  rw [show (trimMatchesQuotes s).data =
      ((s.data.dropWhile isQuoteChar).reverse.dropWhile isQuoteChar).reverse
      from rfl] at h
  rw [List.getLast?_reverse] at h
  exact dropWhile_head_false isQuoteChar (s.data.dropWhile isQuoteChar).reverse c h


theorem collect_typed_ok : ∀ (l : List FnArg),
    (∀ a ∈ l, a ≠ FnArg.receiver) →
    collect_typed l = Except.ok (l.filterMap
      (fun a => match a with
        | FnArg.typed t => some t
        | FnArg.receiver => none)) := by
  intro l
  induction l with
  | nil => intro _; rfl
  | cons a r ih =>
    intro h
    cases a with
    | receiver => exact absurd rfl (h _ (List.mem_cons_self _ _))
    | typed t =>
      have := ih (fun x hx => h x (List.mem_cons_of_mem _ hx))
      simp [collect_typed, List.filterMap_cons, this]

theorem types_err : ∀ (l : List PatType),
    (∃ t ∈ l, isSimpleArg t = false) →
    types l =
      Except.error "Only simple owned types are allowed as arguments at the moment!" := by
  intro l
  induction l with
  | nil =>
    intro h
    rcases h with ⟨t, ht, _⟩
    exact absurd ht (List.not_mem_nil t)
  | cons a r ih =>
    intro h
    cases hp : a.pat with
    | other d => simp [types, hp]
    | ident p =>
      cases hty : a.ty with
      | other d => simp [types, hp, hty]
      | path tn =>
        rcases h with ⟨t, ht, hbad⟩
        rcases List.mem_cons.mp ht with rfl | ht'
        · exfalso
          unfold isSimpleArg at hbad
          rw [hp, hty] at hbad
          simp at hbad
        · have := ih ⟨t, ht', hbad⟩
          simp [types, hp, hty, this]

theorem collect_typed_receiver_err : ∀ (l : List FnArg),
    FnArg.receiver ∈ l →
    collect_typed l =
      Except.error "Only top-level functions are allowed as commands!" := by
  intro l
  induction l with
  | nil => intro h; exact absurd h (List.not_mem_nil _)
  | cons a r ih =>
    intro h
    cases a with
    | receiver => rfl
    | typed t =>
      have hr : FnArg.receiver ∈ r := by
        rcases List.mem_cons.mp h with h' | h'
        · cases h'
        · exact h'
      simp [collect_typed, ih hr]

theorem map_pair_congr {α β : Type} (n t : α → String) (m u : β → String) :
    ∀ (l : List α) (l2 : List β), l.map n = l2.map m → l.map t = l2.map u →
      l.map (fun a => n a ++ ": " ++ t a) =
        l2.map (fun a => m a ++ ": " ++ u a) := by
  intro l
  induction l with
  | nil =>
    intro l2 h1 _
    cases l2 with
    | nil => rfl
    | cons b r2 => simp at h1
  | cons a r ih =>
    intro l2 h1 h2
    cases l2 with
    | nil => simp at h1
    | cons b r2 =>
      simp only [List.map_cons, List.cons.injEq] at h1 h2 ⊢
      exact ⟨by rw [h1.1, h2.1], ih r2 h1.2 h2.2⟩

set_option maxRecDepth 8000 in
/-- Claim C1 as stated is false: for `greet(name: String)` the emitted file
content does not end the return statement with a semicolon before the
closing brace. -/
theorem binding_semicolon_counterexample :
    fileContent stringTs greetFn ≠
      header ++ "\n" ++ invokeImport ++ "\n\n" ++
        "export async function greet(name: string) \x7b return await invoke(\x27greet\x27, \x7b name \x7d); \x7d" := by
  decide

/-- Claim C1 (amended): for every supported function descriptor the emitted
content ends with the declaration
`export async function {name}({params}) \x7b return await invoke('{name}', \x7b {args} \x7d) \x7d`
— both the TypeScript function name and the string literal passed to
`invoke` are the descriptor's name, but there is no semicolon before the
closing brace. -/
theorem binding_declaration_template (ts : String → String) (f : Func)
    (h1 : '%' ∉ f.name.data)
    (h2 : ∀ a ∈ f.args, '%' ∉ a.1.data ∧ '%' ∉ (ts a.2).data) :
    fileContent ts f =
      (header ++ "\n" ++ invokeImport ++ "\n\n") ++
        ("export async function " ++ f.name ++ "(" ++ argsString ts f ++
          ") \x7b return await invoke(\x27" ++ f.name ++ "\x27, \x7b " ++
          joinSep ", " (argNames f) ++ " \x7d) \x7d") :=
  fileContent_split ts f h1 h2

set_option maxRecDepth 8000 in
/-- Witness for C1's amended theorem at `greet(name: String)`. -/
theorem binding_declaration_template_witness :
    fileContent stringTs greetFn =
      (header ++ "\n" ++ invokeImport ++ "\n\n") ++
        "export async function greet(name: string) \x7b return await invoke(\x27greet\x27, \x7b name \x7d) \x7d" :=
  (binding_declaration_template stringTs greetFn (by decide) (by decide)).trans
    (by decide)

/-- Claim C2: `parse_dir_arg` strips surrounding quote characters (double or
single quotes) from the raw argument; if the stripped result is empty
(including when no argument was given) it returns exactly `"../src-gen"`,
and otherwise the stripped string verbatim; it is a pure total function with
no error case. -/
theorem parse_dir_arg_spec (attr : String) :
    (∃ pre suf, attr.data = pre ++ (trimMatchesQuotes attr).data ++ suf ∧
        (∀ c ∈ pre, isQuoteChar c = true) ∧ (∀ c ∈ suf, isQuoteChar c = true)) ∧
    (∀ c, (trimMatchesQuotes attr).data.head? = some c → isQuoteChar c = false) ∧
    (∀ c, (trimMatchesQuotes attr).data.getLast? = some c → isQuoteChar c = false) ∧
    (trimMatchesQuotes attr = "" → parse_dir_arg attr = "../src-gen") ∧
    (trimMatchesQuotes attr ≠ "" → parse_dir_arg attr = trimMatchesQuotes attr) := by
  refine ⟨trimMatchesQuotes_decomp attr, trimMatchesQuotes_head_not_quote attr,
    trimMatchesQuotes_last_not_quote attr, ?_, ?_⟩
  · intro h; simp [parse_dir_arg, h]
  · intro h; simp [parse_dir_arg, h]

/-- Witness for C2: quoted `"./custom"` resolves to `./custom`, the empty
argument resolves to `../src-gen`. -/
theorem parse_dir_arg_spec_witness :
    parse_dir_arg "\x22./custom\x22" = "./custom" ∧
      parse_dir_arg "" = "../src-gen" := by
  constructor
  · exact ((parse_dir_arg_spec "\x22./custom\x22").2.2.2.2 (by decide)).trans
      (by decide)
  · exact (parse_dir_arg_spec "").2.2.2.1 (by decide)

/-- Claim C3: a function whose parameter list contains a parameter that is
not a simple named/path shape (non-identifier binding pattern or non-path
type) makes binding generation abort with the unsupported-type panic
message, and no filesystem operations (hence no output file) are
produced. -/
theorem unsupported_shape_aborts (ts : String → String) (attr : String)
    (item : ItemFn)
    (hrec : ∀ a ∈ item.inputs, a ≠ FnArg.receiver)
    (hbad : ∃ t, FnArg.typed t ∈ item.inputs ∧ isSimpleArg t = false) :
    command ts attr item =
      Except.error "Only simple owned types are allowed as arguments at the moment!" ∧
    ∀ ops, command ts attr item ≠ Except.ok ops := by
  have hcoll := collect_typed_ok item.inputs hrec
  have hbad' : ∃ t ∈ item.inputs.filterMap
      (fun a => match a with
        | FnArg.typed t => some t
        | FnArg.receiver => none), isSimpleArg t = false := by
    rcases hbad with ⟨t, ht, hb⟩
    exact ⟨t, List.mem_filterMap.mpr ⟨FnArg.typed t, ht, rfl⟩, hb⟩
  have herr := types_err _ hbad'
  have hmain : command ts attr item =
      Except.error "Only simple owned types are allowed as arguments at the moment!" := by
    unfold command func_metadata
    rw [hcoll]
    simp [herr]
  refine ⟨hmain, ?_⟩
  intro ops h
  rw [hmain] at h
  cases h

/-- Witness for C3 at a concrete item with a tuple pattern parameter. -/
theorem unsupported_shape_aborts_witness :
    command stringTs "" tupleArgFn =
      Except.error "Only simple owned types are allowed as arguments at the moment!" :=
  (unsupported_shape_aborts stringTs "" tupleArgFn (by decide)
    ⟨{ pat := Pat.other "tuple", ty := Ty.path "i32" }, by decide, rfl⟩).1

/-- Claim C4: emission is deterministic — the emitted operations (path and
byte content) are a pure function of the descriptor's name, parameter
names, parameter type names and the directory; in particular running
generation twice on identical input yields byte-identical content. -/
theorem emission_deterministic (ts zs : String → String) (f g : Func)
    (dir : String) (hname : f.name = g.name)
    (hnames : f.args.map (fun a => a.1) = g.args.map (fun a => a.1))
    (htypes : f.args.map (fun a => ts a.2) = g.args.map (fun a => zs a.2)) :
    generate_test ts f dir = generate_test zs g dir := by
  have hargs : argsString ts f = argsString zs g := by
    rw [argsString_eq, argsString_eq]
    rw [map_pair_congr (fun a => a.1) (fun a => ts a.2)
      (fun a => a.1) (fun a => zs a.2) f.args g.args hnames htypes]
  have hjoin : joinSep ", " (argNames f) = joinSep ", " (argNames g) := by
    unfold argNames
    rw [hnames]
  unfold generate_test file_name fileContent contentTemplate bindingTemplate
  rw [hname, hargs, hjoin]

/-- Witness for C4 at a concrete descriptor and directory. -/
theorem emission_deterministic_witness :
    generate_test stringTs greetFn "../src-gen" =
      generate_test stringTs greetFn "../src-gen" :=
  emission_deterministic stringTs stringTs greetFn greetFn "../src-gen"
    rfl rfl rfl

/-- Claim C5: the emitted file body is exactly the fixed header comment
line, a newline, the fixed import line, one blank line, then the function
declaration — and none of the three parts contains a newline, so the blank
line sits only between the import and the binding. -/
theorem file_body_layout (ts : String → String) (f : Func)
    (h1 : '%' ∉ f.name.data)
    (h2 : ∀ a ∈ f.args, '%' ∉ a.1.data ∧ '%' ∉ (ts a.2).data)
    (h3 : '\n' ∉ f.name.data)
    (h4 : ∀ a ∈ f.args, '\n' ∉ a.1.data ∧ '\n' ∉ (ts a.2).data) :
    fileContent ts f =
      header ++ "\n" ++ invokeImport ++ "\n\n" ++ declLine ts f ∧
    '\n' ∉ header.data ∧ '\n' ∉ invokeImport.data ∧
    '\n' ∉ (declLine ts f).data := by
  refine ⟨fileContent_split ts f h1 h2, by decide, by decide, ?_⟩
  have hargs : '\n' ∉ (argsString ts f).data :=
    argsString_not_mem '\n' (by decide) (by decide) ts f h4
  have hjoin : '\n' ∉ (joinSep ", " (argNames f)).data :=
    namesJoin_not_mem '\n' (by decide) f (fun a ha => (h4 a ha).1)
  unfold declLine
  intro hmem
  simp only [String.data_append] at hmem
  simp only [List.mem_append] at hmem
  rcases hmem with ((((((((hm | hm) | hm) | hm) | hm) | hm) | hm) | hm) | hm)
  · revert hm; decide
  · exact h3 hm
  · revert hm; decide
  · exact hargs hm
  · revert hm; decide
  · exact h3 hm
  · revert hm; decide
  · exact hjoin hm
  · revert hm; decide

/-- Witness for C5 at `greet(name: String)`. -/
theorem file_body_layout_witness :
    fileContent stringTs greetFn =
      header ++ "\n" ++ invokeImport ++ "\n\n" ++ declLine stringTs greetFn :=
  (file_body_layout stringTs greetFn (by decide) (by decide) (by decide)
    (by decide)).1

/-- Claim C6: the parameter-list string is `name1: type1, name2: type2, ...`
over the declared parameters in declaration order, comma-space separated,
with each type name obtained from the resolver; the argument-object string
is the names joined in the same order. -/
theorem parameter_order_preserved (ts : String → String) (f : Func) :
    argsString ts f =
      joinSep ", " (f.args.map (fun a => a.1 ++ ": " ++ ts a.2)) ∧
    joinSep ", " (argNames f) =
      joinSep ", " (f.args.map (fun a => a.1)) :=
  ⟨argsString_eq ts f, rfl⟩

/-- Witness for C6 at a two-parameter descriptor. -/
theorem parameter_order_preserved_witness :
    argsString numberTs addFn = "a: number, b: number" ∧
      joinSep ", " (argNames addFn) = "a, b" := by
  have h := parameter_order_preserved numberTs addFn
  exact ⟨h.1.trans (by decide), h.2.trans (by decide)⟩

/-- Claim C7: a zero-parameter function still emits a wrapper, with an empty
parameter list between the parentheses and an argument object containing no
names. -/
theorem zero_param_wrapper (ts : String → String) (n : String)
    (h : '%' ∉ n.data) :
    argsString ts { name := n, args := [] } = "" ∧
    joinSep ", " (argNames { name := n, args := [] }) = "" ∧
    fileContent ts { name := n, args := [] } =
      header ++ "\n" ++ invokeImport ++ "\n\n" ++
        ("export async function " ++ n ++ "(" ++ "" ++
          ") \x7b return await invoke(\x27" ++ n ++ "\x27, \x7b " ++ "" ++
          " \x7d) \x7d") := by
  have h2 : ∀ a ∈ ({ name := n, args := [] } : Func).args,
      '%' ∉ a.1.data ∧ '%' ∉ (ts a.2).data :=
    fun a ha => absurd ha (List.not_mem_nil a)
  have hs := fileContent_split ts { name := n, args := [] } h h2
  exact ⟨rfl, rfl, hs⟩

set_option maxRecDepth 8000 in
/-- Witness for C7 at a zero-parameter function named `ping`. -/
theorem zero_param_wrapper_witness :
    fileContent stringTs { name := "ping", args := [] } =
      header ++ "\n" ++ invokeImport ++ "\n\n" ++
        "export async function ping() \x7b return await invoke(\x27ping\x27, \x7b  \x7d) \x7d" :=
  ((zero_param_wrapper stringTs "ping" (by decide)).2.2).trans (by decide)

/-- Claim C8: for every supported descriptor and directory, the generated
test performs exactly one write, at `dir/name.ts`, preceded by a recursive
directory creation of `dir`; if the directory creation fails the run aborts
with "Could not create directory" (and the write is not reached), and if
the write fails it aborts with "Could not write generated function binding
to file". -/
theorem single_file_emission (ts : String → String) (f : Func) (dir : String)
    (ok : FsOp → Bool) :
    generate_test ts f dir =
      [FsOp.createDirAll dir,
        FsOp.write (dir ++ "/" ++ f.name ++ ".ts") (fileContent ts f)] ∧
    ((generate_test ts f dir).filter
        (fun op => match op with
          | FsOp.write _ _ => true
          | FsOp.createDirAll _ => false)).length = 1 ∧
    (ok (FsOp.createDirAll dir) = false →
      runOps ok (generate_test ts f dir) =
        Except.error "Could not create directory") ∧
    (ok (FsOp.createDirAll dir) = true →
      ok (FsOp.write (dir ++ "/" ++ f.name ++ ".ts") (fileContent ts f)) = false →
      runOps ok (generate_test ts f dir) =
        Except.error "Could not write generated function binding to file") := by
  refine ⟨rfl, rfl, ?_, ?_⟩
  · intro h
    simp [generate_test, runOps, h, fsErrMsg]
  · intro h1 h2
    simp [generate_test, runOps, file_name, h1, h2, fsErrMsg]

/-- Witness for C8: with an always-failing filesystem, the run aborts with
the directory-creation message. -/
theorem single_file_emission_witness :
    runOps (fun _ => false) (generate_test stringTs greetFn "../src-gen") =
      Except.error "Could not create directory" :=
  (single_file_emission stringTs greetFn "../src-gen" (fun _ => false)).2.2.1
    rfl

/-- Claim C9: the `entity` macro keeps the annotated item unchanged and
attaches the serde `Serialize`/`Deserialize` derives, the `ts_rs::TS`
derive, the `ts(export)` marker and the `ts(export_to = ...)` target, which
is the resolved output directory (with a trailing slash). -/
theorem entity_expansion_spec {α : Type} (attr : String) (item : α) :
    (entity attr item).item = item ∧
    "serde::Serialize" ∈ (entity attr item).derives ∧
    "serde::Deserialize" ∈ (entity attr item).derives ∧
    "ts_rs::TS" ∈ (entity attr item).derives ∧
    (entity attr item).tsExport = true ∧
    (entity attr item).tsExportTo = parse_dir_arg attr ++ "/" := by
  refine ⟨rfl, ?_, ?_, ?_, rfl, rfl⟩ <;> simp [entity]

/-- Witness for C9 at a concrete attribute and item. -/
theorem entity_expansion_spec_witness :
    (entity "\x22./custom\x22" (37 : Nat)).item = 37 ∧
      (entity "\x22./custom\x22" (37 : Nat)).tsExportTo = "./custom/" := by
  have h := entity_expansion_spec "\x22./custom\x22" (37 : Nat)
  exact ⟨h.1, (h.2.2.2.2.2).trans (by decide)⟩

/-- Claim C10: a function item with a receiver parameter (a method) makes
the command binding generator abort with
"Only top-level functions are allowed as commands!", before any descriptor
is built or any file operation is produced. -/
theorem receiver_rejected (ts : String → String) (attr : String)
    (item : ItemFn) (h : FnArg.receiver ∈ item.inputs) :
    func_metadata item =
      Except.error "Only top-level functions are allowed as commands!" ∧
    command ts attr item =
      Except.error "Only top-level functions are allowed as commands!" := by
  have hc := collect_typed_receiver_err item.inputs h
  constructor
  · unfold func_metadata
    rw [hc]
  · unfold command func_metadata
    rw [hc]

/-- Witness for C10 at a concrete method item. -/
theorem receiver_rejected_witness :
    func_metadata methodFn =
      Except.error "Only top-level functions are allowed as commands!" :=
  (receiver_rejected stringTs "" methodFn (by decide)).1

end TauriBindgenTs
